import Mathlib

/-!
Verification of the release-listing tool: a shallow embedding of the
`timeparse` package (duration/time parsing and relative-time formatting),
the `list` package (OData filter construction, paginated fetching with
tag-based candidate collection, deployment resolution and the recursive
YAML component extraction), the `types` package (release document
decoding), and the `last` package (the backward, step-wise search).

Conventions of the embedding:
* Go `time.Duration` and `time.Time` are modelled as `Int` (nanoseconds,
  resp. nanoseconds since an arbitrary epoch); the Go zero time is `0`.
* Go `int64` overflow is modelled explicitly with `wrap64` (two's
  complement wrap-around); `Int./` is Euclidean division, which agrees
  with Go's truncated division on the non-negative operands appearing
  here.
* I/O (blob download, YAML text parsing by the external library, RFC3339
  formatting, the third-party kebab-case conversion and the standard
  library duration parser) is abstracted as function parameters; the
  downloads return the already-parsed YAML document content.
* Go maps are association lists with insert-or-replace semantics.
-/

instance {ε α : Type} [DecidableEq ε] [DecidableEq α] : DecidableEq (Except ε α) := fun a b =>
  match a, b with
  | .ok x, .ok y =>
    if h : x = y then .isTrue (by rw [h]) else .isFalse (by intro hc; cases hc; exact h rfl)
  | .error x, .error y =>
    if h : x = y then .isTrue (by rw [h]) else .isFalse (by intro hc; cases hc; exact h rfl)
  | .ok _, .error _ => .isFalse (by intro hc; cases hc)
  | .error _, .ok _ => .isFalse (by intro hc; cases hc)

/-! ## Duration parsing (`timeparse.ParseDuration`) -/

/-- Two's complement wrap-around of a mathematical integer into the
`int64` range, modelling Go's silent signed-integer overflow. -/
def wrap64 (n : Int) : Int :=
  (n + 9223372036854775808) % 18446744073709551616 - 9223372036854775808

/-- One nanosecond-valued constant per Go `time` unit used below. -/
def nsPerMinute : Int := 60000000000

def nsPerHour : Int := 3600000000000

def nsPerDay : Int := 86400000000000

/-- The value captured by the regular expression `^(\d+)([dw])$` from
`ParseDuration`: the digit run and the unit letter, or `none` when the
input does not match. -/
def durRegexMatch (s : String) : Option (List Char × Char) :=
  match s.data.getLast? with
  | none => none
  | some unit =>
    let digits := s.data.dropLast
    if (unit = 'd' ∨ unit = 'w') ∧ digits ≠ [] ∧ digits.all Char.isDigit then
      some (digits, unit)
    else none

/-- Numeric value of a run of decimal digits. -/
def digitsVal (cs : List Char) : Nat :=
  cs.foldl (fun a c => a * 10 + (c.toNat - 48)) 0

/-- Model of `strconv.Atoi` on a digit-only capture group (the only way
it is reached in `ParseDuration`): the value, or a range error when the
value does not fit in a 64-bit signed integer. -/
def goAtoi (cs : List Char) : Except String Int :=
  if digitsVal cs ≤ 9223372036854775807 then .ok (digitsVal cs)
  else .error "value out of range"

/-- `timeparse.ParseDuration`. The standard-library parser
`time.ParseDuration` (base units `h`/`m`/`s`/`ms`/`us`/`ns`, composable)
is an external collaborator, abstracted as the parameter `std`; it fails
(`none`) on any input containing the `d`/`w` units. The fallback mirrors
the source: match `^(\d+)([dw])$`, convert with `Atoi`, and multiply in
64-bit duration arithmetic (`wrap64` at each multiplication). -/
def ParseDuration (std : String → Option Int) (s : String) : Except String Int :=
  match std s with
  | some d => .ok d
  | none =>
    match durRegexMatch s with
    | none => .error ("invalid duration: " ++ s ++ " (expected format: 2h, 30m, 1d, 2w, etc.)")
    | some (digits, unit) =>
      match goAtoi digits with
      | .error _ => .error ("invalid number in duration: " ++ String.mk digits)
      | .ok value =>
        if unit = 'd' then .ok (wrap64 (wrap64 (value * 24) * nsPerHour))
        else .ok (wrap64 (wrap64 (wrap64 (value * 7) * 24) * nsPerHour))

/-! ## Relative-time formatting (`timeparse.FormatRelativeTime`)

The Go source computes `int(d.Minutes())`, `int(d.Hours())` and
`int(d.Hours() / 24)` by converting through `float64` and truncating;
on the whole-unit multiples and the sub-104-day ranges exercised by the
specification these conversions are exact and agree with integer
division, which is used here. -/

def FormatRelativeTime (d : Int) : String :=
  if d < nsPerMinute then "less than a minute"
  else if d < nsPerHour then
    let minutes := d / nsPerMinute
    if minutes = 1 then "1 minute" else toString minutes ++ " minutes"
  else if d < 24 * nsPerHour then
    let hours := d / nsPerHour
    if hours = 1 then "1 hour" else toString hours ++ " hours"
  else
    let days := d / nsPerDay
    if days = 1 then "1 day"
    else if days ≤ 28 then toString days ++ " days"
    else
      let weeks := days / 7
      if weeks = 1 then "1 week"
      else if weeks < 4 then toString weeks ++ " weeks"
      else
        let months := days / 30
        if months = 1 then "1 month"
        else if months < 12 then toString months ++ " months"
        else
          let years := days / 365
          if years = 1 then "1 year" else toString years ++ " years"

/-! ## Data model (`types` package) -/

/-- `types.Components` (`map[string]string`): flattened component name
to content digest, as an insert-or-replace association list. -/
def Components := List (String × String)
deriving Repr, DecidableEq

instance : EmptyCollection Components := ⟨([] : List (String × String))⟩

/-- Go map assignment `m[k] = v`: replace an existing binding in place,
otherwise add one. -/
def Components.insert (m : Components) (k v : String) : Components :=
  match m with
  | [] => [(k, v)]
  | (k', v') :: rest =>
    if k' = k then (k, v) :: rest else (k', v') :: Components.insert rest k v

/-- `types.ReleaseId`. -/
structure ReleaseId where
  sourceRevision : String
  pipelineRevision : String
deriving Repr, DecidableEq

/-- `types.ReleaseMetadata`. -/
structure ReleaseMetadata where
  releaseId : ReleaseId
  branch : String
  timestamp : String
  pullRequestId : Int
  serviceGroup : String
  serviceGroupBase : String
deriving Repr, DecidableEq

/-- `types.DeploymentTarget`. -/
structure DeploymentTarget where
  cloud : String
  environment : String
  regionConfigs : List String
deriving Repr, DecidableEq

/-- `types.ReleaseDeployment`. -/
structure ReleaseDeployment where
  metadata : ReleaseMetadata
  target : DeploymentTarget
  components : Components
deriving Repr, DecidableEq

/-! ## YAML documents

A parsed YAML node tree (`yaml.Node` of the external library), as the
tagged variant the walk in `downloadAndParseComponents` distinguishes:
mappings (ordered key/value pairs; the key is the key node's `Value`
string), sequences, and scalars carrying their resolved tag (for plain
strings `"!!str"`) and value. -/

inductive Yaml where
  | scalar (tag value : String)
  | mapping (entries : List (String × Yaml))
  | sequence (entries : List Yaml)

/-- First binding of a key in a YAML mapping (the library rejects
duplicate keys, so the first binding is the only one). -/
def yamlLookup (es : List (String × Yaml)) (k : String) : Option Yaml :=
  match es with
  | [] => none
  | (k', v) :: rest => if k' = k then some v else yamlLookup rest k

/-- The string a field of the decode target receives from a mapping:
the scalar value under the key, or the Go zero value `""` when the key
is absent or not a scalar. -/
def yamlStr (es : List (String × Yaml)) (k : String) : String :=
  match yamlLookup es k with
  | some (.scalar _ v) => v
  | _ => ""

/-- Integer field decoding (for `pullRequestId`), zero when absent. -/
def yamlInt (es : List (String × Yaml)) (k : String) : Int :=
  match yamlLookup es k with
  | some (.scalar _ v) => digitsVal v.data
  | _ => 0

/-- String-sequence field decoding (for `regionConfigs`), `nil` when
absent. -/
def yamlStrList (es : List (String × Yaml)) (k : String) : List String :=
  match yamlLookup es k with
  | some (.sequence xs) =>
    xs.filterMap (fun n => match n with | .scalar _ v => some v | _ => none)
  | _ => []

/-- `types.ReleaseDeployment.UnmarshalYAML`, applied to the content
nodes of a parsed document: the inner `fileData` struct reads only the
field names `branch`, `timestamp`, `pullRequestId`, `revision`,
`upstreamRevision`, `cloud`, `environment`, `regionConfigs`,
`serviceGroupBase` and `serviceGroup`; the release identity is built
from `upstreamRevision` (source revision) and `revision` (pipeline
revision), and `Components` is initialized empty. An empty document
leaves the Go zero values; a non-mapping root is a decode error. -/
def unmarshalReleaseDeployment (doc : List Yaml) : Except String ReleaseDeployment :=
  match doc with
  | [] => .ok
    { metadata :=
        { releaseId := { sourceRevision := "", pipelineRevision := "" }
          branch := "", timestamp := "", pullRequestId := 0
          serviceGroup := "", serviceGroupBase := "" }
      target := { cloud := "", environment := "", regionConfigs := [] }
      components := {} }
  | .mapping es :: _ => .ok
    { metadata :=
        { releaseId :=
            { sourceRevision := yamlStr es "upstreamRevision"
              pipelineRevision := yamlStr es "revision" }
          branch := yamlStr es "branch"
          timestamp := yamlStr es "timestamp"
          pullRequestId := yamlInt es "pullRequestId"
          serviceGroup := yamlStr es "serviceGroup"
          serviceGroupBase := yamlStr es "serviceGroupBase" }
      target :=
        { cloud := yamlStr es "cloud"
          environment := yamlStr es "environment"
          regionConfigs := yamlStrList es "regionConfigs" }
      components := {} }
  | _ => .error "failed to unmarshal YAML"

/-! ## List options and the OData filter (`list` package) -/

def ReleaseFileName : String := "release.yaml"

def ConfigFileName : String := "config.yaml"

/-- `list.completedOptions` (the fields the query pipeline reads; the
Azure client handle is the abstracted backend). `untilT` is the Go
field `Until` (`until` is reserved in Lean). -/
structure ListOptionsT where
  environment : String
  since : Int
  untilT : Int
  serviceGroupBase : String
  pipelineRevision : String
  sourceRevision : String
  storageContainerName : String
  includeComponents : Bool
  limit : Int
deriving Repr, DecidableEq

/-- One entry of the `filters` table in `buildODataFilter`. -/
structure FilterItem where
  key : String
  value : String
  operator : String
  enabled : Bool
deriving Repr, DecidableEq

/-- `list.buildODataFilter`. `fmtTime` abstracts
`time.Time.Format(time.RFC3339)`. -/
def buildODataFilter (fmtTime : Int → String) (opts : ListOptionsT) : String :=
  let filters : List FilterItem :=
    [ { key := "environment", value := opts.environment, operator := "=", enabled := true },
      { key := "serviceGroupBase", value := opts.serviceGroupBase, operator := "=", enabled := true },
      { key := "timestamp", value := fmtTime opts.since, operator := ">=", enabled := true },
      { key := "timestamp", value := fmtTime opts.untilT, operator := "<", enabled := true },
      { key := "serviceGroup", value := "", operator := ">=", enabled := true },
      { key := "revision", value := opts.pipelineRevision, operator := "=",
        enabled := opts.pipelineRevision ≠ "" },
      { key := "upstreamRevision", value := opts.sourceRevision, operator := "=",
        enabled := opts.sourceRevision ≠ "" } ]
  let filter :=
    ("@container='" ++ opts.storageContainerName ++ "'") ::
      filters.filterMap (fun item =>
        if item.enabled then
          some ("\"" ++ item.key ++ "\"" ++ item.operator ++ "'" ++ item.value ++ "'")
        else none)
  String.intercalate " AND " filter

/-! ## Component extraction (`list.downloadAndParseComponents`) -/

/-- Split a character list at `'/'` (for the `filepath.Dir` model). -/
def splitOnSlash : List Char → List (List Char)
  | [] => [[]]
  | c :: rest =>
    match splitOnSlash rest with
    | [] => [[]]
    | seg :: segs => if c = '/' then [] :: seg :: segs else (c :: seg) :: segs

/-- Model of `filepath.Dir` on the clean, relative, slash-separated
blob paths used by the tool: everything before the last separator, or
`"."` when there is none. -/
def dirname (p : String) : String :=
  let parts := splitOnSlash p.data
  if parts.length ≤ 1 then "."
  else String.intercalate "/" ((parts.dropLast).map (fun cs => String.mk cs))

/-- The sibling components-manifest path:
`strings.Join([]string{filepath.Dir(releasePath), region, ConfigFileName}, "/")`. -/
def componentsPath (releasePath region : String) : String :=
  String.intercalate "/" [dirname releasePath, region, ConfigFileName]

/-- `strings.TrimPrefix(v, "sha256:")`. -/
def trimSha256 (v : String) : String :=
  if ("sha256:".data).isPrefixOf v.data then String.mk (v.data.drop 7) else v

mutual
/-- The recursive `walk` closure of `downloadAndParseComponents`.
On a scalar leaf: a non-`!!str` tag or empty value is logged and the
leaf discarded; an empty accumulated path is logged and the leaf
discarded; otherwise the last path segment is dropped, the remaining
segments are kebab-cased (`kebab` abstracts `strcase.KebabCase`) and
joined with `"."`, and the `sha256:`-trimmed value is stored. -/
def walk (kebab : String → String) (n : Yaml) (path : List String) (acc : Components) :
    Components :=
  match n with
  | .mapping es => walkMapping kebab es path acc
  | .sequence es => walkSequence kebab es 0 path acc
  | .scalar tag value =>
    if tag ≠ "!!str" ∨ value = "" then acc
    else if path = [] then acc
    else acc.insert (String.intercalate "." ((path.dropLast).map kebab)) (trimSha256 value)

/-- Mapping case: expand each key into the path and recurse. -/
def walkMapping (kebab : String → String) (es : List (String × Yaml)) (path : List String)
    (acc : Components) : Components :=
  match es with
  | [] => acc
  | (k, v) :: rest => walkMapping kebab rest path (walk kebab v (path ++ [k]) acc)

/-- Sequence case: the zero-based index (decimal) is the path segment. -/
def walkSequence (kebab : String → String) (es : List Yaml) (i : Nat) (path : List String)
    (acc : Components) : Components :=
  match es with
  | [] => acc
  | v :: rest => walkSequence kebab rest (i + 1) path (walk kebab v (path ++ [toString i]) acc)
end

/-- `list.downloadAndParseComponents`. `download` abstracts blob
download plus the external YAML text parse and returns the parsed
document's root content nodes (`root.Content`); a download or parse
failure is its `.error`. An empty document is a fatal error; otherwise
the first content node is walked. -/
def downloadAndParseComponents (kebab : String → String)
    (download : String → Except String (List Yaml)) (releasePath region : String) :
    Except String Components :=
  match download (componentsPath releasePath region) with
  | .error e => .error ("failed to download config: " ++ e)
  | .ok [] => .error "parsed YAML document is empty"
  | .ok (root :: _) => .ok (walk kebab root [] {})

/-! ## Deployment resolution (`list.downloadAndParseRelease`) -/

/-- `list.downloadAndParseRelease`: download the release blob, decode
it with the custom unmarshaller, and — when component inclusion is
requested and the decoded deployment has at least one region — fetch
and extract the components manifest of the *first* region, any failure
of which propagates as this candidate's error. -/
def downloadAndParseRelease (opts : ListOptionsT) (download : String → Except String (List Yaml))
    (kebab : String → String) (blobName : String) : Except String ReleaseDeployment :=
  match download blobName with
  | .error e => .error ("failed to download blob: " ++ e)
  | .ok content =>
    match unmarshalReleaseDeployment content with
    | .error e => .error ("failed to unmarshal YAML: " ++ e)
    | .ok deployment =>
      match opts.includeComponents, deployment.target.regionConfigs with
      | true, region :: _ =>
        match downloadAndParseComponents kebab download blobName region with
        | .error e => .error ("failed to download and parse components: " ++ e)
        | .ok components => .ok { deployment with components := components }
      | _, _ => .ok deployment

/-! ## Paginated fetching (`list.ListReleaseDeployments`) -/

/-- One raw listing entry (a filtered blob with its tag set); the
concatenation of all pages returned by the backend before the
continuation marker is exhausted. -/
structure BlobEntry where
  containerName : String
  name : String
  tags : List (String × String)
deriving Repr, DecidableEq

/-- The `blobWithTime` record collected per eligible entry. -/
structure BlobWithTime where
  containerName : String
  name : String
  tags : List (String × String)
  timestamp : Int
deriving Repr, DecidableEq

/-- Tag lookup in an entry's tag set. -/
def lookupTag (tags : List (String × String)) (k : String) : Option String :=
  match tags with
  | [] => none
  | (k', v) :: rest => if k' = k then some v else lookupTag rest k

/-- `strings.HasSuffix` via character lists. -/
def hasSuffix (s suffix : String) : Bool :=
  suffix.data.isSuffixOf s.data

/-- The per-entry collection step of the fetch loop: keep only entries
whose path ends in `"/release.yaml"`; require a `timestamp` tag whose
value parses (`parseTs` abstracts `time.Parse(time.RFC3339, ·)`);
entries failing either timestamp condition are logged and skipped. -/
def collectEntry (parseTs : String → Option Int) (b : BlobEntry) : Option BlobWithTime :=
  if hasSuffix b.name ("/" ++ ReleaseFileName) then
    match lookupTag b.tags "timestamp" with
    | none => none
    | some ts =>
      match parseTs ts with
      | none => none
      | some t =>
        some { containerName := b.containerName, name := b.name, tags := b.tags, timestamp := t }
  else none

/-- All candidates collected across the pages. -/
def collectCandidates (parseTs : String → Option Int) (entries : List BlobEntry) :
    List BlobWithTime :=
  entries.filterMap (collectEntry parseTs)

/-- The comparison `blobs[i].timestamp.After(blobs[j].timestamp)` sorts
descending by timestamp; `sort.Slice` guarantees exactly a sorted
permutation, modelled by insertion sort under the reflexive closure of
that order. -/
def sortDescByTime (blobs : List BlobWithTime) : List BlobWithTime :=
  List.insertionSort (fun a b => b.timestamp ≤ a.timestamp) blobs

/-- `if opts.Limit > 0 && opts.Limit < len(blobs) { blobs = blobs[:opts.Limit] }`. -/
def applyLimit (limit : Int) (blobs : List BlobWithTime) : List BlobWithTime :=
  if 0 < limit ∧ limit < blobs.length then blobs.take limit.toNat else blobs

/-- The resolver loop at the end of `ListReleaseDeployments`: resolve
each ranked candidate; a failed resolution is logged and that candidate
skipped; successes are appended in order. -/
def resolveLoop (opts : ListOptionsT) (download : String → Except String (List Yaml))
    (kebab : String → String) : List BlobWithTime → List ReleaseDeployment
  | [] => []
  | b :: rest =>
    match downloadAndParseRelease opts download kebab b.name with
    | .error _ => resolveLoop opts download kebab rest
    | .ok d => d :: resolveLoop opts download kebab rest

/-- `list.ListReleaseDeployments` given the concatenated listing pages
(backend listing errors abort before this point and are outside the
pure pipeline): collect candidates, return the empty list when none
are eligible, otherwise sort descending, truncate to a positive limit,
and resolve candidate by candidate, skipping failures. -/
def ListReleaseDeployments (opts : ListOptionsT) (parseTs : String → Option Int)
    (download : String → Except String (List Yaml)) (kebab : String → String)
    (entries : List BlobEntry) : Except String (List ReleaseDeployment) :=
  let blobs := collectCandidates parseTs entries
  if blobs.isEmpty then .ok []
  else .ok (resolveLoop opts download kebab (applyLimit opts.limit (sortDescByTime blobs)))

/-! ## Backward search (`last.LastReleaseDeployment`) -/

def ErrNoDeploymentsFound : String := "no deployments found in lookback window"

/-- The window the loop body installs on the shared options for the
iteration whose upper bound is `wUntil`:
`windowSince = windowUntil - step`, `windowUntil = end - offset`. -/
def setWindow (opts : ListOptionsT) (step wUntil : Int) : ListOptionsT :=
  { opts with since := wUntil - step, untilT := wUntil }

/-- The `for offset := 0; offset < maxLookback; offset += step` loop of
`LastReleaseDeployment`, structurally recursive on a fuel bound on the
iteration count (for a validated `step ≥ 1` the loop provably exits
before any sufficient fuel runs out, and exhausting the fuel gives the
same result as the loop's exit). Besides the loop's result (`none`
meaning the window search was exhausted), the number of executed query
iterations and the mutated shared options are returned. `q` abstracts
one full execution of `ListReleaseDeployments` on the current options. -/
def lastLoopF (q : ListOptionsT → Except String (List ReleaseDeployment))
    (endA step maxLB : Int) :
    Nat → Int → ListOptionsT → Except String (Option ReleaseDeployment) × Nat × ListOptionsT
  | 0, _, opts => (.ok none, 0, opts)
  | fuel + 1, offset, opts =>
    if offset < maxLB then
      let opts' := setWindow opts step (endA - offset)
      match q opts' with
      | .error e => (.error e, 1, opts')
      | .ok [] =>
        let r := lastLoopF q endA step maxLB fuel (offset + step) opts'
        (r.1, r.2.1 + 1, r.2.2)
      | .ok (d :: _) => (.ok (some d), 1, opts')
    else (.ok none, 0, opts)

/-- `last.LastReleaseDeployment`. Anchor: the configured until value,
or the current instant `now` when it is unset (zero). The original
since/until are restored on the shared options by the deferred
function, whatever the outcome; loop exit without a match becomes the
distinct `ErrNoDeploymentsFound`. The returned triple is the result,
the number of query iterations performed, and the shared options as
the caller observes them after the call. -/
def LastReleaseDeployment (q : ListOptionsT → Except String (List ReleaseDeployment))
    (opts : ListOptionsT) (now step maxLB : Int) :
    Except String ReleaseDeployment × Nat × ListOptionsT :=
  let endA := if opts.untilT = 0 then now else opts.untilT
  let r := lastLoopF q endA step maxLB (maxLB.toNat + 1) 0 opts
  let restored := { r.2.2 with since := opts.since, untilT := opts.untilT }
  match r.1 with
  | .error e => (.error e, r.2.1, restored)
  | .ok (some d) => (.ok d, r.2.1, restored)
  | .ok none => (.error ErrNoDeploymentsFound, r.2.1, restored)

/-! ## Concrete fixtures

Small concrete scenarios used to evaluate the pipeline on explicit
inputs: a timestamp parser over opaque tokens, two release documents
(one with a region list, one without), a download table whose
components manifest download fails, and the corresponding listing
entries. -/

def kebabId : String → String := fun s => s

def parseTsFix : String → Option Int := fun s =>
  if s == "t1" then some 1 else if s == "t2" then some 2
  else if s == "t3" then some 3 else none

def optsFix : ListOptionsT :=
  { environment := "int"
    since := 0
    untilT := 100
    serviceGroupBase := "B"
    pipelineRevision := ""
    sourceRevision := ""
    storageContainerName := "releases"
    includeComponents := true
    limit := 0 }

def relDocWithRegion : Yaml :=
  .mapping [("regionConfigs", .sequence [.scalar "!!str" "r"])]

def relDocNoRegion : Yaml := .mapping [("branch", .scalar "!!str" "main")]

def downloadFix : String → Except String (List Yaml) := fun p =>
  if p == "a/release.yaml" then .ok [relDocWithRegion]
  else if p == "b/release.yaml" then .ok [relDocNoRegion]
  else .error "boom"

def entryA : BlobEntry :=
  { containerName := "releases", name := "a/release.yaml", tags := [("timestamp", "t2")] }

def entryB : BlobEntry :=
  { containerName := "releases", name := "b/release.yaml", tags := [("timestamp", "t1")] }

def entryC : BlobEntry :=
  { containerName := "releases", name := "c/release.yaml", tags := [("timestamp", "t3")] }

/-- An entry with no `timestamp` tag at all. -/
def entryNoTs : BlobEntry :=
  { containerName := "releases", name := "x/release.yaml", tags := [("serviceGroup", "g")] }

/-- The deployment decoded from `relDocNoRegion`. -/
def deployB : ReleaseDeployment :=
  { metadata :=
      { releaseId := { sourceRevision := "", pipelineRevision := "" }
        branch := "main"
        timestamp := ""
        pullRequestId := 0
        serviceGroup := ""
        serviceGroupBase := "" }
    target := { cloud := "", environment := "", regionConfigs := [] }
    components := {} }

def bwtA : BlobWithTime :=
  { containerName := "releases", name := "a/release.yaml", tags := [("timestamp", "t2")]
    timestamp := 2 }

def bwtB : BlobWithTime :=
  { containerName := "releases", name := "b/release.yaml", tags := [("timestamp", "t1")]
    timestamp := 1 }

/-- The deployment decoded from `relDocWithRegion`. -/
def deployA : ReleaseDeployment :=
  { metadata :=
      { releaseId := { sourceRevision := "", pipelineRevision := "" }
        branch := ""
        timestamp := ""
        pullRequestId := 0
        serviceGroup := ""
        serviceGroupBase := "" }
    target := { cloud := "", environment := "", regionConfigs := ["r"] }
    components := {} }

/-! ## Theorems -/

/-- Arithmetic in the `int64` range is unchanged by the wrap. -/
theorem wrap64_eq_self (n : Int) (h0 : 0 ≤ n) (h1 : n ≤ 9223372036854775807) :
    wrap64 n = n := by
  unfold wrap64
  omega

/-- C2: the sub-day and day buckets behave as the specification's table
states (59s, 1min, 59min, 1h, 23h59m, 24h, 28d), but at exactly 29 days
the code returns `"0 months"` — not the claimed `"4 weeks"`: `days = 29`
skips the day bucket, `weeks = 29 / 7 = 4` fails both `weeks == 1` and
`weeks < 4`, and the month bucket prints `months = 29 / 30 = 0`. The
weeks branch is unreachable for every input. -/
theorem FormatRelativeTime_bucket_table :
    FormatRelativeTime 59000000000 = "less than a minute" ∧
    FormatRelativeTime nsPerMinute = "1 minute" ∧
    FormatRelativeTime 3599000000000 = "59 minutes" ∧
    FormatRelativeTime nsPerHour = "1 hour" ∧
    FormatRelativeTime (23 * nsPerHour + 59 * nsPerMinute) = "23 hours" ∧
    FormatRelativeTime nsPerDay = "1 day" ∧
    FormatRelativeTime (28 * nsPerDay) = "28 days" ∧
    FormatRelativeTime (29 * nsPerDay) = "0 months" := by
  decide

/-- C9 counterexample: `"106752d"` has the exact shape `<int>d` (and the
standard-library parser rejects the `d` unit, modelled by the constant
`none` parser), yet the result is not `106752 * 24h`: the 64-bit
duration multiplication wraps around to a negative value. -/
theorem ParseDuration_days_overflow_cex :
    ParseDuration (fun _ => none) "106752d" = .ok (-9223371273709551616) ∧
    (-9223371273709551616 : Int) ≠ 106752 * 24 * nsPerHour := by
  decide

/-- C9 (amended): base-unit inputs recognized by the standard-library
parser are returned unchanged; a `<int>d` (resp. `<int>w`) input whose
resulting duration fits in `int64` yields exactly `int * 24h` (resp.
`int * 7 * 24h`); an input matching neither fails with the
"invalid duration" error naming the offending input. -/
theorem ParseDuration_spec (std : String → Option Int) (s : String) :
    (∀ d, std s = some d → ParseDuration std s = .ok d) ∧
    (∀ digits, std s = none → durRegexMatch s = some (digits, 'd') →
      (digitsVal digits : Int) * 24 * nsPerHour ≤ 9223372036854775807 →
      ParseDuration std s = .ok ((digitsVal digits : Int) * 24 * nsPerHour)) ∧
    (∀ digits, std s = none → durRegexMatch s = some (digits, 'w') →
      (digitsVal digits : Int) * 7 * 24 * nsPerHour ≤ 9223372036854775807 →
      ParseDuration std s = .ok ((digitsVal digits : Int) * 7 * 24 * nsPerHour)) ∧
    (std s = none → durRegexMatch s = none →
      ParseDuration std s =
        .error ("invalid duration: " ++ s ++ " (expected format: 2h, 30m, 1d, 2w, etc.)")) := by
  refine ⟨?_, ?_, ?_, ?_⟩
  · intro d h
    unfold ParseDuration
    rw [h]
  · intro digits hstd hre hbound
    unfold ParseDuration
    rw [hstd, hre]
    unfold goAtoi
    simp only [nsPerHour] at hbound ⊢
    have hval : digitsVal digits ≤ 9223372036854775807 := by omega
    rw [if_pos hval]
    simp only [if_true]
    rw [wrap64_eq_self ((digitsVal digits : Int) * 24) (by omega) (by omega),
        wrap64_eq_self ((digitsVal digits : Int) * 24 * 3600000000000) (by omega) (by omega)]
  · intro digits hstd hre hbound
    unfold ParseDuration
    rw [hstd, hre]
    unfold goAtoi
    simp only [nsPerHour] at hbound ⊢
    have hval : digitsVal digits ≤ 9223372036854775807 := by omega
    rw [if_pos hval]
    have hdw : ('w' = 'd') = False := by simp
    simp only [hdw, if_false]
    rw [wrap64_eq_self ((digitsVal digits : Int) * 7) (by omega) (by omega),
        wrap64_eq_self ((digitsVal digits : Int) * 7 * 24) (by omega) (by omega),
        wrap64_eq_self ((digitsVal digits : Int) * 7 * 24 * 3600000000000) (by omega) (by omega)]
  · intro hstd hre
    unfold ParseDuration
    rw [hstd, hre]

/-- C9 witness: `ParseDuration_spec` applied at `"2d"`, `"3w"`, a
base-unit input, and a shapeless input. -/
theorem ParseDuration_spec_witness :
    ParseDuration (fun _ => none) "2d" = .ok 172800000000000 ∧
    ParseDuration (fun _ => none) "3w" = .ok 1814400000000000 ∧
    ParseDuration (fun t => if t = "1h30m" then some 5400000000000 else none) "1h30m" =
      .ok 5400000000000 ∧
    ParseDuration (fun _ => none) "xyz" =
      .error "invalid duration: xyz (expected format: 2h, 30m, 1d, 2w, etc.)" := by
  refine ⟨?_, ?_, ?_, ?_⟩
  · have h := (ParseDuration_spec (fun _ => none) "2d").2.1 ['2'] rfl (by decide) (by decide)
    rw [h]
    decide
  · have h := (ParseDuration_spec (fun _ => none) "3w").2.2.1 ['3'] rfl (by decide) (by decide)
    rw [h]
    decide
  · exact (ParseDuration_spec (fun t => if t = "1h30m" then some 5400000000000 else none)
      "1h30m").1 5400000000000 (by decide)
  · exact (ParseDuration_spec (fun _ => none) "xyz").2.2.2 rfl (by decide)

/-- C7: the filter is exactly the container clause followed by the five
always-present clauses in their fixed order, then the revision clause
and the upstream-revision clause, each present if and only if its value
is non-empty; clauses are joined with the literal `" AND "`, keys
double-quoted and values single-quoted. Determinism is immediate: the
output is a pure function of the inputs shown. -/
theorem buildODataFilter_clauses (fmtTime : Int → String) (opts : ListOptionsT) :
    buildODataFilter fmtTime opts =
      String.intercalate " AND "
        ((["@container='" ++ opts.storageContainerName ++ "'",
           "\"" ++ "environment" ++ "\"" ++ "=" ++ "'" ++ opts.environment ++ "'",
           "\"" ++ "serviceGroupBase" ++ "\"" ++ "=" ++ "'" ++ opts.serviceGroupBase ++ "'",
           "\"" ++ "timestamp" ++ "\"" ++ ">=" ++ "'" ++ fmtTime opts.since ++ "'",
           "\"" ++ "timestamp" ++ "\"" ++ "<" ++ "'" ++ fmtTime opts.untilT ++ "'",
           "\"" ++ "serviceGroup" ++ "\"" ++ ">=" ++ "'" ++ "" ++ "'"] ++
          (if opts.pipelineRevision ≠ "" then
            ["\"" ++ "revision" ++ "\"" ++ "=" ++ "'" ++ opts.pipelineRevision ++ "'"] else []) ++
          (if opts.sourceRevision ≠ "" then
            ["\"" ++ "upstreamRevision" ++ "\"" ++ "=" ++ "'" ++ opts.sourceRevision ++ "'"] else []))) := by
  by_cases h1 : opts.pipelineRevision = "" <;> by_cases h2 : opts.sourceRevision = "" <;>
    simp [buildODataFilter, h1, h2]

/-- C3 counterexample: two otherwise-equal documents, one using the
canonical field names `sourceRevision`/`pipelineRevision` and one using
the legacy names `upstreamRevision`/`revision`. The decoder populates
the release identity only from the legacy names: the canonical-name
document decodes to an empty identity, so the two results differ. -/
theorem unmarshalReleaseDeployment_canonical_names_cex :
    (unmarshalReleaseDeployment
        [Yaml.mapping [("sourceRevision", Yaml.scalar "!!str" "a"),
                       ("pipelineRevision", Yaml.scalar "!!str" "b")]]).map
      (fun d => d.metadata.releaseId) =
      .ok { sourceRevision := "", pipelineRevision := "" } ∧
    (unmarshalReleaseDeployment
        [Yaml.mapping [("upstreamRevision", Yaml.scalar "!!str" "a"),
                       ("revision", Yaml.scalar "!!str" "b")]]).map
      (fun d => d.metadata.releaseId) =
      .ok { sourceRevision := "a", pipelineRevision := "b" } ∧
    ({ sourceRevision := "", pipelineRevision := "" } : ReleaseId) ≠
      { sourceRevision := "a", pipelineRevision := "b" } := by
  decide

/-- C3 (amended): decoding reads only the legacy field names — the
release identity of every decoded mapping document is exactly the
scalar under `upstreamRevision` (source revision) and the scalar under
`revision` (pipeline revision); the canonical spellings are ignored by
the decoder, and the components mapping is initialized empty. -/
theorem unmarshalReleaseDeployment_reads_legacy_names (es : List (String × Yaml)) :
    (unmarshalReleaseDeployment [Yaml.mapping es]).map (fun d => d.metadata.releaseId) =
      .ok { sourceRevision := yamlStr es "upstreamRevision"
            pipelineRevision := yamlStr es "revision" } ∧
    (unmarshalReleaseDeployment [Yaml.mapping es]).map (fun d => d.components) =
      .ok {} := by
  exact ⟨rfl, rfl⟩

/-- C4 counterexample: a components manifest whose root is a plain
non-empty string scalar — the walk reaches this leaf with zero
accumulated path segments, logs, and skips it: the call returns an
empty components mapping with no error, where the claim demands a fatal
error. -/
theorem downloadAndParseComponents_root_scalar_cex :
    downloadAndParseComponents (fun s => s)
      (fun p => if p == "a/r/config.yaml" then .ok [Yaml.scalar "!!str" "hello"]
                else .error "nope")
      "a/release.yaml" "r" = .ok {} ∧
    (downloadAndParseComponents (fun s => s)
      (fun p => if p == "a/r/config.yaml" then .ok [Yaml.scalar "!!str" "hello"]
                else .error "nope")
      "a/release.yaml" "r").isOk = true := by
  decide

/-- C4 (amended): an empty document (no root content) is a fatal error
of the components call, but a scalar leaf reached with zero accumulated
path segments (a scalar document root) is skipped non-fatally: the call
succeeds with an empty components mapping. -/
theorem downloadAndParseComponents_empty_fatal_rootScalar_skipped (kebab : String → String)
    (download : String → Except String (List Yaml)) (releasePath region : String) :
    (download (componentsPath releasePath region) = .ok [] →
      downloadAndParseComponents kebab download releasePath region =
        .error "parsed YAML document is empty") ∧
    (∀ tag value rest,
      download (componentsPath releasePath region) = .ok (Yaml.scalar tag value :: rest) →
      downloadAndParseComponents kebab download releasePath region = .ok {}) := by
  constructor
  · intro h
    unfold downloadAndParseComponents
    rw [h]
  · intro tag value rest h
    unfold downloadAndParseComponents
    rw [h]
    show Except.ok (walk kebab (Yaml.scalar tag value) [] {}) = .ok {}
    unfold walk
    split
    · rfl
    · simp

/-- C4 witness: `downloadAndParseComponents_empty_fatal_rootScalar_skipped`
applied to a download returning an empty document and to one returning
a scalar-rooted document. -/
theorem downloadAndParseComponents_empty_fatal_rootScalar_skipped_witness :
    downloadAndParseComponents (fun s => s) (fun _ => .ok []) "p/release.yaml" "q" =
      .error "parsed YAML document is empty" ∧
    downloadAndParseComponents (fun s => s) (fun _ => .ok [Yaml.scalar "!!str" "x"])
      "p/release.yaml" "q" = .ok {} := by
  constructor
  · exact (downloadAndParseComponents_empty_fatal_rootScalar_skipped (fun s => s)
      (fun _ => .ok []) "p/release.yaml" "q").1 rfl
  · exact (downloadAndParseComponents_empty_fatal_rootScalar_skipped (fun s => s)
      (fun _ => .ok [Yaml.scalar "!!str" "x"]) "p/release.yaml" "q").2 "!!str" "x" [] rfl

instance : IsTotal BlobWithTime (fun a b => b.timestamp ≤ a.timestamp) :=
  ⟨fun a b => le_total b.timestamp a.timestamp⟩

instance : IsTrans BlobWithTime (fun a b => b.timestamp ≤ a.timestamp) :=
  ⟨fun _ _ _ hab hbc => le_trans hbc hab⟩

/-- The sort step produces a descending-by-timestamp list. -/
theorem sortDescByTime_pairwise (l : List BlobWithTime) :
    List.Pairwise (fun a b => b.timestamp ≤ a.timestamp) (sortDescByTime l) := by
  have h := List.sorted_insertionSort (fun a b : BlobWithTime => b.timestamp ≤ a.timestamp) l
  simpa [sortDescByTime, List.Sorted] using h

/-- The sort step permutes its input. -/
theorem sortDescByTime_perm (l : List BlobWithTime) : (sortDescByTime l).Perm l := by
  unfold sortDescByTime
  exact List.perm_insertionSort (fun a b => b.timestamp ≤ a.timestamp) l

/-- In a descending list, everything kept by `take` dominates
everything discarded by `drop`. -/
theorem pairwise_take_drop {l : List BlobWithTime} (n : Nat)
    (h : List.Pairwise (fun a b => b.timestamp ≤ a.timestamp) l) :
    ∀ x ∈ l.take n, ∀ y ∈ l.drop n, y.timestamp ≤ x.timestamp := by
  rw [← List.take_append_drop n l] at h
  exact fun x hx y hy => (List.pairwise_append.mp h).2.2 x hx y hy

/-- The listing always returns `.ok` of the resolved, ranked,
limit-truncated candidates: per-candidate resolution failures never
fail the whole call. -/
theorem ListReleaseDeployments_eq_ok (opts : ListOptionsT) (parseTs : String → Option Int)
    (download : String → Except String (List Yaml)) (kebab : String → String)
    (entries : List BlobEntry) :
    ListReleaseDeployments opts parseTs download kebab entries =
      .ok (if (collectCandidates parseTs entries).isEmpty then []
           else resolveLoop opts download kebab
             (applyLimit opts.limit (sortDescByTime (collectCandidates parseTs entries)))) := by
  unfold ListReleaseDeployments
  by_cases h : (collectCandidates parseTs entries).isEmpty = true <;> simp [h]

/-- When every ranked candidate fails to resolve, the loop yields the
empty list. -/
theorem resolveLoop_eq_nil (opts : ListOptionsT) (download : String → Except String (List Yaml))
    (kebab : String → String) (l : List BlobWithTime)
    (h : ∀ b ∈ l, (downloadAndParseRelease opts download kebab b.name).isOk = false) :
    resolveLoop opts download kebab l = [] := by
  induction l with
  | nil => rfl
  | cons b rest ih =>
    have hb := h b (by simp)
    unfold resolveLoop
    rcases hd : downloadAndParseRelease opts download kebab b.name with e | d
    · exact ih (fun x hx => h x (by simp [hx]))
    · rw [hd] at hb
      simp [Except.isOk, Except.toBool] at hb

/-- C8: an entry whose `timestamp` tag is missing or unparsable
contributes nothing to the collected candidates (removing it leaves
them unchanged) while the fetch still succeeds; the collected
candidates are sorted descending by timestamp (a permutation of the
eligible set); and with a positive limit smaller than the candidate
count, exactly `limit` candidates are retained, each of them at least
as recent as every discarded one. -/
theorem ListReleaseDeployments_fetch_spec (opts : ListOptionsT) (parseTs : String → Option Int)
    (download : String → Except String (List Yaml)) (kebab : String → String) :
    (∀ pre (b : BlobEntry) post,
      (lookupTag b.tags "timestamp" = none ∨
        ∃ ts, lookupTag b.tags "timestamp" = some ts ∧ parseTs ts = none) →
      collectCandidates parseTs (pre ++ b :: post) = collectCandidates parseTs (pre ++ post) ∧
      ∃ ds, ListReleaseDeployments opts parseTs download kebab (pre ++ b :: post) = .ok ds) ∧
    (∀ blobs : List BlobWithTime,
      List.Pairwise (fun a b => b.timestamp ≤ a.timestamp) (sortDescByTime blobs) ∧
      (sortDescByTime blobs).Perm blobs) ∧
    (∀ entries : List BlobEntry,
      0 < opts.limit →
      (opts.limit : Int) < (sortDescByTime (collectCandidates parseTs entries)).length →
      (applyLimit opts.limit (sortDescByTime (collectCandidates parseTs entries))).length =
        opts.limit.toNat ∧
      (∀ x ∈ applyLimit opts.limit (sortDescByTime (collectCandidates parseTs entries)),
        ∀ y ∈ (sortDescByTime (collectCandidates parseTs entries)).drop opts.limit.toNat,
          y.timestamp ≤ x.timestamp)) := by
  refine ⟨?_, ?_, ?_⟩
  · intro pre b post hbad
    have hnone : collectEntry parseTs b = none := by
      unfold collectEntry
      rcases hbad with h | ⟨ts, hts, hp⟩
      · split
        · rw [h]
        · rfl
      · split
        · rw [hts]
          simp [hp]
        · rfl
    constructor
    · unfold collectCandidates
      rw [List.filterMap_append, List.filterMap_append, List.filterMap_cons_none hnone]
    · exact ⟨_, ListReleaseDeployments_eq_ok opts parseTs download kebab (pre ++ b :: post)⟩
  · intro blobs
    exact ⟨sortDescByTime_pairwise blobs, sortDescByTime_perm blobs⟩
  · intro entries h1 h2
    have hcond : 0 < opts.limit ∧
        (opts.limit : Int) < (sortDescByTime (collectCandidates parseTs entries)).length :=
      ⟨h1, h2⟩
    constructor
    · unfold applyLimit
      rw [if_pos hcond, List.length_take]
      omega
    · intro x hx y hy
      have hx' : x ∈ (sortDescByTime (collectCandidates parseTs entries)).take opts.limit.toNat := by
        unfold applyLimit at hx
        rwa [if_pos hcond] at hx
      exact pairwise_take_drop opts.limit.toNat
        (sortDescByTime_pairwise (collectCandidates parseTs entries)) x hx' y hy

/-- C8 witness: `ListReleaseDeployments_fetch_spec` applied to a run
with a tag-less entry among two eligible ones, to the three-candidate
eligible set, and to a limit of 2 over three candidates. -/
theorem ListReleaseDeployments_fetch_spec_witness :
    collectCandidates parseTsFix ([entryA] ++ entryNoTs :: [entryB]) =
      collectCandidates parseTsFix ([entryA] ++ [entryB]) ∧
    (∃ ds, ListReleaseDeployments optsFix parseTsFix downloadFix kebabId
      ([entryA] ++ entryNoTs :: [entryB]) = .ok ds) ∧
    List.Pairwise (fun a b => b.timestamp ≤ a.timestamp)
      (sortDescByTime (collectCandidates parseTsFix [entryA, entryB, entryC])) ∧
    (applyLimit { optsFix with limit := 2 }.limit
      (sortDescByTime (collectCandidates parseTsFix [entryA, entryB, entryC]))).length = 2 := by
  have hbad : lookupTag entryNoTs.tags "timestamp" = none ∨
      ∃ ts, lookupTag entryNoTs.tags "timestamp" = some ts ∧ parseTsFix ts = none := by
    left
    decide
  have h1 := (ListReleaseDeployments_fetch_spec optsFix parseTsFix downloadFix kebabId).1
    [entryA] entryNoTs [entryB] hbad
  have h2 := ((ListReleaseDeployments_fetch_spec optsFix parseTsFix downloadFix kebabId).2.1
    (collectCandidates parseTsFix [entryA, entryB, entryC])).1
  have h3 := ((ListReleaseDeployments_fetch_spec { optsFix with limit := 2 } parseTsFix
    downloadFix kebabId).2.2 [entryA, entryB, entryC] (by decide) (by decide)).1
  exact ⟨h1.1, h1.2, h2, h3⟩

/-- C10: an empty eligible-candidate set yields `.ok []`, and so does a
run in which every ranked candidate's resolution fails — the empty
result carries no error and is distinguishable from a backend failure
(which would be `.error`). -/
theorem ListReleaseDeployments_empty_is_ok (opts : ListOptionsT) (parseTs : String → Option Int)
    (download : String → Except String (List Yaml)) (kebab : String → String)
    (entries : List BlobEntry) :
    (collectCandidates parseTs entries = [] →
      ListReleaseDeployments opts parseTs download kebab entries = .ok []) ∧
    ((∀ b ∈ applyLimit opts.limit (sortDescByTime (collectCandidates parseTs entries)),
        (downloadAndParseRelease opts download kebab b.name).isOk = false) →
      ListReleaseDeployments opts parseTs download kebab entries = .ok []) := by
  constructor
  · intro h
    rw [ListReleaseDeployments_eq_ok, h]
    rfl
  · intro h
    rw [ListReleaseDeployments_eq_ok]
    by_cases hemp : (collectCandidates parseTs entries).isEmpty = true
    · simp [hemp]
    · simp only [hemp, if_false]
      rw [resolveLoop_eq_nil opts download kebab _ h]
      simp

/-- C10 witness: `ListReleaseDeployments_empty_is_ok` applied to a run
with no entries and to a run whose only candidate fails to download. -/
theorem ListReleaseDeployments_empty_is_ok_witness :
    ListReleaseDeployments optsFix parseTsFix downloadFix kebabId [] = .ok [] ∧
    ListReleaseDeployments optsFix parseTsFix (fun _ => .error "down") kebabId [entryA] =
      .ok [] := by
  constructor
  · exact (ListReleaseDeployments_empty_is_ok optsFix parseTsFix downloadFix kebabId []).1 rfl
  · exact (ListReleaseDeployments_empty_is_ok optsFix parseTsFix (fun _ => .error "down")
      kebabId [entryA]).2 (by decide)

/-- C1 counterexample: component inclusion is on, candidate
`a/release.yaml` (the more recent) fails because its components
manifest download fails, candidate `b/release.yaml` resolves — and
`ListReleaseDeployments` still returns `.ok` with the remaining
deployment: the components failure did not fail the whole call, it was
skipped exactly like a decode failure. -/
theorem components_failure_not_fatal_cex :
    downloadAndParseComponents kebabId downloadFix "a/release.yaml" "r" =
      .error "failed to download config: boom" ∧
    downloadAndParseRelease optsFix downloadFix kebabId "a/release.yaml" =
      .error "failed to download and parse components: failed to download config: boom" ∧
    ListReleaseDeployments optsFix parseTsFix downloadFix kebabId [entryA, entryB] =
      .ok [deployB] ∧
    (ListReleaseDeployments optsFix parseTsFix downloadFix kebabId [entryA, entryB]).isOk =
      true := by
  decide

/-- C1 (amended): a candidate whose resolution fails — release decode
failure or components failure alike — is skipped by the resolver loop;
a components download/extraction failure is fatal for that candidate's
`downloadAndParseRelease` (it propagates there, unlike per-leaf
tolerance inside extraction); and the overall listing nevertheless
always returns `.ok` with the remaining deployments. -/
theorem per_candidate_failures_skipped (opts : ListOptionsT) (parseTs : String → Option Int)
    (download : String → Except String (List Yaml)) (kebab : String → String) :
    (∀ (b : BlobWithTime) rest,
      (downloadAndParseRelease opts download kebab b.name).isOk = false →
      resolveLoop opts download kebab (b :: rest) = resolveLoop opts download kebab rest) ∧
    (∀ blobName doc (d : ReleaseDeployment) region regions e,
      download blobName = .ok doc →
      unmarshalReleaseDeployment doc = .ok d →
      opts.includeComponents = true →
      d.target.regionConfigs = region :: regions →
      downloadAndParseComponents kebab download blobName region = .error e →
      downloadAndParseRelease opts download kebab blobName =
        .error ("failed to download and parse components: " ++ e)) ∧
    (∀ entries, ∃ ds, ListReleaseDeployments opts parseTs download kebab entries = .ok ds) := by
  refine ⟨?_, ?_, ?_⟩
  · intro b rest hfail
    rcases hd : downloadAndParseRelease opts download kebab b.name with e | d
    · simp only [resolveLoop, hd]
    · rw [hd] at hfail
      simp [Except.isOk, Except.toBool] at hfail
  · intro blobName doc d region regions e hdl hum hinc hreg hcomp
    unfold downloadAndParseRelease
    simp only [hdl, hum, hinc, hreg, hcomp]
  · intro entries
    exact ⟨_, ListReleaseDeployments_eq_ok opts parseTs download kebab entries⟩

/-- C1 witness: `per_candidate_failures_skipped` applied to the
concrete failing-components candidate and its companion. -/
theorem per_candidate_failures_skipped_witness :
    resolveLoop optsFix downloadFix kebabId [bwtA, bwtB] =
      resolveLoop optsFix downloadFix kebabId [bwtB] ∧
    downloadAndParseRelease optsFix downloadFix kebabId "a/release.yaml" =
      .error ("failed to download and parse components: " ++ "failed to download config: boom") ∧
    (∃ ds, ListReleaseDeployments optsFix parseTsFix downloadFix kebabId [entryA, entryB] =
      .ok ds) := by
  refine ⟨?_, ?_, ?_⟩
  · exact (per_candidate_failures_skipped optsFix parseTsFix downloadFix kebabId).1
      bwtA [bwtB] (by decide)
  · exact (per_candidate_failures_skipped optsFix parseTsFix downloadFix kebabId).2.1
      "a/release.yaml" [relDocWithRegion] deployA "r" [] "failed to download config: boom"
      rfl rfl rfl rfl rfl
  · exact (per_candidate_failures_skipped optsFix parseTsFix downloadFix kebabId).2.2
      [entryA, entryB]

/-- Installing a window twice keeps only the last one (the loop body
overwrites the same two fields each iteration). -/
theorem setWindow_setWindow (opts : ListOptionsT) (s1 u1 s2 u2 : Int) :
    setWindow (setWindow opts s1 u1) s2 u2 = setWindow opts s2 u2 := rfl

/-- Restoring the original since/until on a window-mutated options
value yields back the original. -/
theorem restore_setWindow (opts : ListOptionsT) (s u : Int) :
    { setWindow opts s u with since := opts.since, untilT := opts.untilT } = opts := rfl

theorem restore_self (opts : ListOptionsT) :
    { opts with since := opts.since, untilT := opts.untilT } = opts := rfl

/-- If the first `k` windows are empty and the `(k+1)`-th query answers
with a non-empty list, the loop stops there: it returns the head of
that window's result, has performed exactly `k + 1` query iterations,
and leaves the shared options at the `(k+1)`-th window. -/
theorem lastLoopF_success (q : ListOptionsT → Except String (List ReleaseDeployment))
    (endA step maxLB : Int) (hstep : 0 < step) :
    ∀ (k fuel : Nat) (offset : Int) (opts : ListOptionsT) (d : ReleaseDeployment)
      (ds : List ReleaseDeployment),
      k < fuel →
      offset + (k : Int) * step < maxLB →
      (∀ j : Nat, j < k → q (setWindow opts step (endA - (offset + (j : Int) * step))) = .ok []) →
      q (setWindow opts step (endA - (offset + (k : Int) * step))) = .ok (d :: ds) →
      lastLoopF q endA step maxLB fuel offset opts =
        (.ok (some d), k + 1, setWindow opts step (endA - (offset + (k : Int) * step))) := by
  intro k
  induction k with
  | zero =>
    intro fuel offset opts d ds hk hoff hwin hq
    obtain ⟨f, rfl⟩ : ∃ f, fuel = f + 1 := ⟨fuel - 1, by omega⟩
    simp only [Nat.cast_zero, zero_mul, add_zero] at hoff hq
    simp only [lastLoopF]
    rw [if_pos hoff]
    simp only [hq]
    simp only [Nat.cast_zero, zero_mul, add_zero]
  | succ k ih =>
    intro fuel offset opts d ds hk hoff hwin hq
    obtain ⟨f, rfl⟩ : ∃ f, fuel = f + 1 := ⟨fuel - 1, by omega⟩
    have hkpos : (0 : Int) < ((k : Int) + 1) * step := by positivity
    have hoff0 : offset < maxLB := by
      push_cast at hoff
      nlinarith
    have hw0 := hwin 0 (Nat.succ_pos k)
    simp only [Nat.cast_zero, zero_mul, add_zero] at hw0
    have harg : ∀ j : Nat, (offset + step) + (j : Int) * step = offset + ((j : Int) + 1) * step := by
      intro j
      ring
    have hIH := ih f (offset + step) (setWindow opts step (endA - offset)) d ds
      (by omega)
      (by rw [harg k]; push_cast at hoff ⊢; linarith)
      (fun j hj => by
        rw [setWindow_setWindow, harg j]
        have := hwin (j + 1) (by omega)
        push_cast at this ⊢
        exact this)
      (by
        rw [setWindow_setWindow, harg k]
        push_cast at hq ⊢
        exact hq)
    simp only [lastLoopF]
    rw [if_pos hoff0]
    simp only [hw0, hIH, setWindow_setWindow]
    rw [harg k]
    push_cast
    ring_nf

/-- If every window inside the lookback answers with an empty list, the
loop exhausts: it reports no deployment and has performed exactly
`ceil((maxLB - offset) / step)` query iterations. -/
theorem lastLoopF_exhaust (q : ListOptionsT → Except String (List ReleaseDeployment))
    (endA step maxLB : Int) (hstep : 0 < step) :
    ∀ (fuel : Nat) (offset : Int) (opts : ListOptionsT),
      maxLB - offset ≤ (fuel : Int) * step →
      (∀ j : Nat, offset + (j : Int) * step < maxLB →
        q (setWindow opts step (endA - (offset + (j : Int) * step))) = .ok []) →
      (lastLoopF q endA step maxLB fuel offset opts).1 = .ok none ∧
      (lastLoopF q endA step maxLB fuel offset opts).2.1 =
        ((maxLB - offset + step - 1) / step).toNat := by
  intro fuel
  induction fuel with
  | zero =>
    intro offset opts hfuel hwin
    push_cast at hfuel
    have h1 : (maxLB - offset + step - 1) / step < 1 := by
      rw [Int.ediv_lt_iff_lt_mul hstep]
      omega
    refine ⟨rfl, ?_⟩
    show (0 : Nat) = ((maxLB - offset + step - 1) / step).toNat
    omega
  | succ f ih =>
    intro offset opts hfuel hwin
    by_cases ho : offset < maxLB
    · have hw0 := hwin 0 (by simpa using ho)
      simp only [Nat.cast_zero, zero_mul, add_zero] at hw0
      have harg : ∀ j : Nat, (offset + step) + (j : Int) * step = offset + ((j : Int) + 1) * step :=
        fun j => by ring
      have hIH := ih (offset + step) (setWindow opts step (endA - offset))
        (by push_cast at hfuel ⊢; linarith)
        (fun j hj => by
          rw [setWindow_setWindow, harg j]
          have h2 := hwin (j + 1) (by push_cast; linarith)
          push_cast at h2 ⊢
          exact h2)
      simp only [lastLoopF]
      rw [if_pos ho]
      simp only [hw0]
      rcases hIH with ⟨h1, h2⟩
      constructor
      · simpa using h1
      · have e1 : maxLB - (offset + step) + step - 1 = maxLB - offset - 1 := by ring
        have e2 : maxLB - offset + step - 1 = (maxLB - offset - 1) + 1 * step := by ring
        have h3 : 0 ≤ (maxLB - offset - 1) / step := Int.ediv_nonneg (by omega) (by omega)
        rw [e1] at h2
        simp only [h2]
        rw [e2, Int.add_mul_ediv_right _ _ (ne_of_gt hstep)]
        omega
    · have h1 : (maxLB - offset + step - 1) / step < 1 := by
        rw [Int.ediv_lt_iff_lt_mul hstep]
        omega
      simp only [lastLoopF]
      rw [if_neg ho]
      refine ⟨rfl, ?_⟩
      show (0 : Nat) = ((maxLB - offset + step - 1) / step).toNat
      omega

/-- The loop leaves the shared options either untouched or at some
installed window — it never changes any other field. -/
theorem lastLoopF_state (q : ListOptionsT → Except String (List ReleaseDeployment))
    (endA step maxLB : Int) :
    ∀ (fuel : Nat) (offset : Int) (opts : ListOptionsT),
      (lastLoopF q endA step maxLB fuel offset opts).2.2 = opts ∨
      ∃ u, (lastLoopF q endA step maxLB fuel offset opts).2.2 = setWindow opts step u := by
  intro fuel
  induction fuel with
  | zero =>
    intro offset opts
    left
    rfl
  | succ f ih =>
    intro offset opts
    simp only [lastLoopF]
    by_cases ho : offset < maxLB
    · rw [if_pos ho]
      rcases hq : q (setWindow opts step (endA - offset)) with e | ds
      · right
        exact ⟨endA - offset, rfl⟩
      · cases ds with
        | nil =>
          right
          rcases ih (offset + step) (setWindow opts step (endA - offset)) with h | ⟨u, h⟩
          · refine ⟨endA - offset, ?_⟩
            simp only [h]
          · refine ⟨u, ?_⟩
            rw [h, setWindow_setWindow]
        | cons d rest =>
          right
          exact ⟨endA - offset, rfl⟩
    · rw [if_neg ho]
      left
      rfl

/-- Whatever the loop did to the shared options, restoring the original
since/until yields back exactly the original options. -/
theorem lastLoopF_restore (q : ListOptionsT → Except String (List ReleaseDeployment))
    (endA step maxLB : Int) (fuel : Nat) (offset : Int) (opts : ListOptionsT) :
    ({ (lastLoopF q endA step maxLB fuel offset opts).2.2 with
        since := opts.since, untilT := opts.untilT } : ListOptionsT) = opts := by
  rcases lastLoopF_state q endA step maxLB fuel offset opts with h | ⟨u, h⟩
  · rw [h]
  · rw [h]
    exact restore_setWindow opts step u

/-- C6: after `LastReleaseDeployment` returns — with a deployment, with
the exhaustion error, or with a propagated backend error (the statement
quantifies over every query behaviour and outcome) — the shared options
the caller observes are exactly the original ones; in particular since
and until are restored. -/
theorem LastReleaseDeployment_restores_window
    (q : ListOptionsT → Except String (List ReleaseDeployment)) (opts : ListOptionsT)
    (now step maxLB : Int) :
    (LastReleaseDeployment q opts now step maxLB).2.2 = opts ∧
    ((LastReleaseDeployment q opts now step maxLB).2.2).since = opts.since ∧
    ((LastReleaseDeployment q opts now step maxLB).2.2).untilT = opts.untilT := by
  have hmain : (LastReleaseDeployment q opts now step maxLB).2.2 = opts := by
    unfold LastReleaseDeployment
    have hrest := lastLoopF_restore q (if opts.untilT = 0 then now else opts.untilT) step maxLB
      (maxLB.toNat + 1) 0 opts
    rcases h1 : (lastLoopF q (if opts.untilT = 0 then now else opts.untilT) step maxLB
      (maxLB.toNat + 1) 0 opts).1 with e | od
    · simp only [h1, hrest]
    · cases od <;> simp only [h1, hrest]
  exact ⟨hmain, by rw [hmain], by rw [hmain]⟩

/-- C5: with validated step and lookback, iteration `k` installs the
half-open window `[anchor - (k+1)*step, anchor - k*step)` (as
since/until, which the filter turns into `>=`/`<`) where the anchor is
the configured until or `now` when that is zero. If the first `k`
windows are empty and window `k` yields a non-empty (descending-sorted
by C8) result, the call returns its first element after exactly `k + 1`
full query iterations; if every window inside the lookback is empty it
returns the distinct exhaustion error after exactly
`ceil(maxLookback / step)` iterations. In both cases the caller's
options are returned unchanged. -/
theorem LastReleaseDeployment_spec
    (q : ListOptionsT → Except String (List ReleaseDeployment)) (opts : ListOptionsT)
    (now step maxLB : Int) (hstep : 0 < step) (hmax : 0 < maxLB) (hsm : step ≤ maxLB) :
    (∀ (k : Nat) (d : ReleaseDeployment) (ds : List ReleaseDeployment),
      (k : Int) * step < maxLB →
      (∀ j : Nat, j < k →
        q (setWindow opts step
          ((if opts.untilT = 0 then now else opts.untilT) - (j : Int) * step)) = .ok []) →
      q (setWindow opts step
        ((if opts.untilT = 0 then now else opts.untilT) - (k : Int) * step)) = .ok (d :: ds) →
      LastReleaseDeployment q opts now step maxLB = (.ok d, k + 1, opts)) ∧
    ((∀ j : Nat, (j : Int) * step < maxLB →
        q (setWindow opts step
          ((if opts.untilT = 0 then now else opts.untilT) - (j : Int) * step)) = .ok []) →
      LastReleaseDeployment q opts now step maxLB =
        (.error ErrNoDeploymentsFound, ((maxLB + step - 1) / step).toNat, opts)) := by
  constructor
  · intro k d ds hk hwin hq
    have hkfuel : k < maxLB.toNat + 1 := by
      have h1 : (k : Int) * 1 ≤ (k : Int) * step := by
        apply mul_le_mul_of_nonneg_left (by omega) (by positivity)
      omega
    have hsucc := lastLoopF_success q (if opts.untilT = 0 then now else opts.untilT) step maxLB
      hstep k (maxLB.toNat + 1) 0 opts d ds hkfuel
      (by simpa using hk)
      (fun j hj => by simpa using hwin j hj)
      (by simpa using hq)
    unfold LastReleaseDeployment
    simp only [hsucc]
    rw [zero_add]
    rw [restore_setWindow]
  · intro hwin
    have hfuel : maxLB - 0 ≤ ((maxLB.toNat + 1 : Nat) : Int) * step := by
      have h1 : ((maxLB.toNat + 1 : Nat) : Int) * 1 ≤ ((maxLB.toNat + 1 : Nat) : Int) * step := by
        apply mul_le_mul_of_nonneg_left (by omega) (by positivity)
      push_cast at h1 ⊢
      omega
    have hex := lastLoopF_exhaust q (if opts.untilT = 0 then now else opts.untilT) step maxLB
      hstep (maxLB.toNat + 1) 0 opts hfuel
      (fun j hj => by
        have := hwin j (by simpa using hj)
        simpa using this)
    have hrest := lastLoopF_restore q (if opts.untilT = 0 then now else opts.untilT) step maxLB
      (maxLB.toNat + 1) 0 opts
    rcases hex with ⟨h1, h2⟩
    unfold LastReleaseDeployment
    simp only [h1, h2, hrest, sub_zero]

/-- C5 witness: `LastReleaseDeployment_spec` applied with `step = 10`,
`maxLookback = 30`: the spec example — only the second window back
matches, so exactly 2 iterations run; the no-match case exhausts after
`ceil(30/10) = 3` iterations; the anchor defaults to `now` when the
configured until is zero. -/
theorem LastReleaseDeployment_spec_witness :
    LastReleaseDeployment
      (fun o => if o.untilT == 90 then .ok [deployB] else .ok []) optsFix 0 10 30 =
      (.ok deployB, 2, optsFix) ∧
    LastReleaseDeployment (fun _ => .ok []) optsFix 0 10 30 =
      (.error ErrNoDeploymentsFound, 3, optsFix) ∧
    LastReleaseDeployment
      (fun o => if o.untilT == 200 then .ok [deployB] else .ok [])
      { optsFix with untilT := 0 } 200 10 30 =
      (.ok deployB, 1, { optsFix with untilT := 0 }) := by
  refine ⟨?_, ?_, ?_⟩
  · exact (LastReleaseDeployment_spec
      (fun o => if o.untilT == 90 then .ok [deployB] else .ok []) optsFix 0 10 30
      (by decide) (by decide) (by decide)).1 1 deployB [] (by decide) (by decide) (by decide)
  · have h := (LastReleaseDeployment_spec (fun _ => .ok []) optsFix 0 10 30
      (by decide) (by decide) (by decide)).2 (fun j hj => rfl)
    rw [h]
    decide
  · exact (LastReleaseDeployment_spec
      (fun o => if o.untilT == 200 then .ok [deployB] else .ok [])
      { optsFix with untilT := 0 } 200 10 30
      (by decide) (by decide) (by decide)).1 0 deployB [] (by decide) (by decide) (by decide)
